import Mathlib

/-!
Verification development for the goxpress web framework (Go).

The development shallowly embeds the two algorithmic cores of the framework:

* the Radix-tree router of `router.go` (`parsePattern`, `insertRoute`,
  `searchRoute`, `matchChild`, `getRoute`, `Router.Group`, `Router.Use`,
  `Router.Handle`), and
* the middleware dispatch chain of `context.go` / `goxpress.go`
  (`Context.Next`, `Context.Abort`, `Context.Status`, `Context.String`,
  `Engine.ServeHTTP` including the 404 path and the error-handler loop).

Handler bodies are embedded as straight-line lists of the context operations
a goxpress handler can perform (`Act`); executions are instrumented with a
ghost event log (`Ev`) recording handler invocations, record tags, error
writes, aborts and error-handler invocations, so that ordering properties of
the dispatch chain can be stated.  The chain interpreter is fuel-indexed
(the Go loop always terminates, but its termination argument is a run-time
invariant, so the embedding makes partiality explicit with `Option`).
-/

namespace Goxpress

/-! ### Parameter maps (Go `map[string]string`) -/

/-- A `map[string]string` value, represented as an association list whose
semantics is given by `mapLookup`; `mapSet` overwrites, `mapErase` deletes. -/
abbrev Params := List (String × String)

def mapLookup (ps : Params) (k : String) : Option String :=
  (ps.find? (fun kv => kv.1 == k)).map (fun kv => kv.2)

def mapErase (ps : Params) (k : String) : Params :=
  ps.filter (fun kv => !(kv.1 == k))

def mapSet (ps : Params) (k v : String) : Params :=
  (k, v) :: mapErase ps k

/-! ### parsePattern (router.go)

`parsePattern` splits a pattern on `/`, skipping empty segments; when a
segment beginning with `*` is terminated by a further `/`, the Go loop
`break`s without advancing `start`, so the final append also emits the whole
remainder of the string starting at that `*` segment. -/

def parsePatternAux : List Char → List Char → List String
  | [], cur => if cur.isEmpty then [] else [String.mk cur]
  | '/' :: rest, cur =>
      if cur.isEmpty then parsePatternAux rest []
      else if cur.headD ' ' == '*' then
        [String.mk cur, String.mk (cur ++ '/' :: rest)]
      else String.mk cur :: parsePatternAux rest []
  | ch :: rest, cur => parsePatternAux rest (cur ++ [ch])

/-- Go `parsePattern`: split a route pattern into its segments. -/
def parsePattern (pattern : String) : List String :=
  parsePatternAux pattern.toList []

/-! ### The route tree (router.go `routerNode`) -/

/-- Handlers (`HandlerFunc`) are embedded as straight-line programs over the
context: the operations a goxpress handler performs on its `*Context`. -/
inductive Act : Type where
  /-- Ghost observation: the handler records a tag (side effect visible to
  the test harness, e.g. appending to a slice). -/
  | record (tag : String)
  /-- `c.Next()` (argument `none`) or `c.Next(err)` with non-nil `err`
  (argument `some v`); `c.Next(nil)` behaves like `c.Next()` and is also
  represented by `none`. -/
  | callNext (e : Option Nat)
  /-- `c.Abort()`. -/
  | abort
  /-- `c.Status(code)`. -/
  | status (code : Nat)
  /-- `c.String(code, body)`. -/
  | strWrite (code : Nat) (body : String)
deriving DecidableEq, Repr

abbrev Handler := List Act

/-- Go `routerNode`: a Radix-tree node with its full pattern (set only at
terminal nodes), its own segment `part`, children, wildcard flag and the
handler chain registered at it. -/
inductive RouterNode : Type where
  | mk (pattern : String) (part : String) (children : List RouterNode)
       (isWild : Bool) (handlers : List Handler)
deriving Repr

def RouterNode.pattern : RouterNode → String
  | .mk p _ _ _ _ => p

def RouterNode.part : RouterNode → String
  | .mk _ p _ _ _ => p

def RouterNode.children : RouterNode → List RouterNode
  | .mk _ _ c _ _ => c

def RouterNode.isWild : RouterNode → Bool
  | .mk _ _ _ w _ => w

def RouterNode.handlers : RouterNode → List Handler
  | .mk _ _ _ _ h => h

/-- Head-character test: Go `part[0] == c` / `strings.HasPrefix(part, c)`
for a one-character prefix (kernel-reducible, unlike `String.startsWith`). -/
def strHead (s : String) (c : Char) : Bool :=
  match s.toList with
  | [] => false
  | c0 :: _ => c0 == c

/-- Go `part[1:]` (ASCII): drop the leading marker character. -/
def strTail (s : String) : String := String.mk (s.toList.drop 1)

/-- The fresh root node `&routerNode{}` allocated by `addRoute`. -/
def emptyNode : RouterNode := .mk "" "" [] false []

/-- Go `matchChild`: index of the first child whose `part` matches exactly
or which is a wildcard node. -/
def matchChild (children : List RouterNode) (part : String) : Option Nat :=
  children.findIdx? (fun ch => ch.part == part || ch.isWild)

/-- Go `insertRoute`: insert a pattern along the remaining segments,
reusing the first matching (possibly wildcard) child at each level and
overwriting `pattern`/`handlers` at the terminal node. -/
def insertRoute (n : RouterNode) (pattern : String) (rest : List String)
    (hs : List Handler) : RouterNode :=
  match rest with
  | [] => .mk pattern n.part n.children n.isWild hs
  | part :: restT =>
      match matchChild n.children part with
      | some i =>
          .mk n.pattern n.part
            (n.children.set i
              (insertRoute (n.children.getD i emptyNode) pattern restT hs))
            n.isWild n.handlers
      | none =>
          let newChild : RouterNode :=
            .mk "" part [] (strHead part ':' || strHead part '*') []
          .mk n.pattern n.part
            (n.children ++ [insertRoute newChild pattern restT hs])
            n.isWild n.handlers

def joinSlash (xs : List String) : String := String.intercalate "/" xs

/-- The inner loop of Go `searchRoute` over the children of a node.  The
recursive descent into a child is abstracted as `recur` (instantiated with
the search at the remaining segments), which makes the structural recursion
of `searchRoute` on the segment list explicit. -/
def childLoop (recur : RouterNode → Params → Option RouterNode × Params)
    (part : String) (joined : String) :
    List RouterNode → Params → Option RouterNode × Params
  | [], ps => (none, ps)
  | ch :: rest', ps =>
      if ch.part == part || ch.isWild then
        if ch.isWild && strHead ch.part ':' then
          match recur ch (mapSet ps (strTail ch.part) part) with
          | (some x, ps2) => (some x, ps2)
          | (none, ps2) =>
              childLoop recur part joined rest' (mapErase ps2 (strTail ch.part))
        else if ch.isWild && strHead ch.part '*' then
          (some ch, mapSet ps (strTail ch.part) joined)
        else
          match recur ch ps with
          | (some x, ps2) => (some x, ps2)
          | (none, ps2) => childLoop recur part joined rest' ps2
      else childLoop recur part joined rest' ps

/-- Recursion kernel of `searchRoute` on the remaining path segments,
spelled with `List.rec` so that closed searches compute by `rfl`. -/
def searchRouteGo : List String → RouterNode → Params → Option RouterNode × Params :=
  List.rec
    (motive := fun _ => RouterNode → Params → Option RouterNode × Params)
    (fun n ps => (if n.pattern == "" then none else some n, ps))
    (fun part restT ih n ps =>
      if strHead n.part '*' then
        (if n.pattern == "" then none else some n, ps)
      else
        childLoop (fun ch ps' => ih ch ps') part
          (joinSlash (part :: restT)) n.children ps)

/-- Go `searchRoute`: search the remaining path segments below a node,
binding `:`-parameters (with backtracking deletion on failure) and
`*`-wildcards (capturing the slash-joined remainder). -/
def searchRoute (n : RouterNode) (rest : List String) (ps : Params) :
    Option RouterNode × Params :=
  searchRouteGo rest n ps

/-! ### Method forest (router.go `routes map[string]*routerTree`) -/

abbrev Forest := List (String × RouterNode)

def forestFind (f : Forest) (method : String) : Option RouterNode :=
  (f.find? (fun kv => kv.1 == method)).map (fun kv => kv.2)

def forestSet (f : Forest) (method : String) (n : RouterNode) : Forest :=
  match f with
  | [] => [(method, n)]
  | kv :: rest =>
      if kv.1 == method then (method, n) :: rest
      else kv :: forestSet rest method n

/-- Go `addRoute`: create the method tree if absent and insert the pattern. -/
def addRoute (f : Forest) (method pattern : String) (hs : List Handler) :
    Forest :=
  let root := (forestFind f method).getD emptyNode
  forestSet f method (insertRoute root pattern (parsePattern pattern) hs)

/-- Go `getRoute`: look up the method tree and search the path; returns the
matched terminal node and accumulated params, or nothing. -/
def getRoute (f : Forest) (method path : String) :
    Option RouterNode × Params :=
  match forestFind f method with
  | none => (none, [])
  | some root =>
      match searchRoute root (parsePattern path) [] with
      | (some n, ps) => (some n, ps)
      | (none, _) => (none, [])

/-! ### The dispatch chain (context.go `Context.Next` / `Context.Abort`)

The chain interpreter instruments executions with a ghost event log. -/

/-- Ghost events observed during a request execution, in chronological
order. -/
inductive Ev : Type where
  /-- The `Next` loop invoked the handler at cursor position `i`. -/
  | invoked (i : Nat)
  /-- A handler recorded the tag `t`. -/
  | recd (t : String)
  /-- `Next(err)` stored the non-nil error `v` into the context. -/
  | errSet (v : Nat)
  /-- `Abort()` set the abort flag. -/
  | abortSet
  /-- `ServeHTTP` invoked the registered error handler `h` with error `v`. -/
  | errHandler (h : Nat) (v : Nat)
deriving DecidableEq, Repr

/-- The mutable request state of Go `Context` (plus the ghost log):
cursor, stored error, abort flag, response-status state, response body,
route params. -/
structure Ctx : Type where
  index : Int
  err : Option Nat
  aborted : Bool
  statusCodeWritten : Bool
  statusCode : Option Nat
  body : List String
  params : Params
  log : List Ev
deriving DecidableEq, Repr

/-- The context `NewContext` hands to `ServeHTTP` (cursor `-1`, clean flags)
with the route params installed. -/
def initCtx (ps : Params) : Ctx :=
  { index := -1, err := none, aborted := false, statusCodeWritten := false
    statusCode := none, body := [], params := ps, log := [] }

def logEv (e : Ev) (c : Ctx) : Ctx := { c with log := c.log ++ [e] }

/-- The error-storing prelude of Go `Next(err ...)`: a non-nil argument
overwrites the stored error. -/
def applyErr (e : Option Nat) (c : Ctx) : Ctx :=
  match e with
  | some v => { c with err := some v, log := c.log ++ [Ev.errSet v] }
  | none => c

def bumpIndex (c : Ctx) : Ctx := { c with index := c.index + 1 }

/-- Go `Context.Status`: write the status code once. -/
def statusOp (code : Nat) (c : Ctx) : Ctx :=
  if c.statusCodeWritten then c
  else { c with statusCode := some code, statusCodeWritten := true }

/-- Go `Context.String`: write the status code once, then always append the
body text. -/
def strWriteOp (code : Nat) (s : String) (c : Ctx) : Ctx :=
  let c1 := statusOp code c
  { c1 with body := c1.body ++ [s] }

/-- Run one handler body.  `cont` is the semantics of `c.Next(err?)` from the
current state (instantiated by `runLoop` with the loop at the remaining
fuel); `none` means the interpreter ran out of fuel inside a nested call. -/
def runHandler (cont : Option Nat → Ctx → Option Ctx) :
    List Act → Ctx → Option Ctx
  | [], c => some c
  | Act.record t :: rest, c => runHandler cont rest (logEv (Ev.recd t) c)
  | Act.abort :: rest, c =>
      runHandler cont rest (logEv Ev.abortSet { c with aborted := true })
  | Act.status k :: rest, c => runHandler cont rest (statusOp k c)
  | Act.strWrite k s :: rest, c => runHandler cont rest (strWriteOp k s c)
  | Act.callNext e :: rest, c =>
      match cont e c with
      | none => none
      | some c2 => runHandler cont rest c2

/-- The loop of Go `Context.Next`: while the cursor is in bounds, return if
aborted, otherwise invoke the handler at the cursor and advance.  A nested
`Next` inside a handler re-enters this same loop on the shared cursor (at
one unit less fuel). -/
def runLoop : Nat → List Handler → Ctx → Option Ctx
  | 0, _, _ => none
  | fuel + 1, hs, c =>
      if c.index < (hs.length : Int) then
        if c.aborted then some c
        else
          match
            runHandler
              (fun e c2 => runLoop fuel hs (bumpIndex (applyErr e c2)))
              (hs.getD c.index.toNat []) (logEv (Ev.invoked c.index.toNat) c)
          with
          | none => none
          | some c2 => runLoop fuel hs (bumpIndex c2)
      else some c

/-- Go `Context.Next(err?)`: store a supplied error, advance the shared
cursor, and run the loop. -/
def nextCall (fuel : Nat) (hs : List Handler) (e : Option Nat) (c : Ctx) :
    Option Ctx :=
  runLoop fuel hs (bumpIndex (applyErr e c))

/-- The single `c.Next()` call made by `Engine.ServeHTTP` on a fresh context
with handler chain `hs`. -/
def chainRun (fuel : Nat) (hs : List Handler) : Option Ctx :=
  nextCall fuel hs none (initCtx [])

/-! ### Engine.ServeHTTP (goxpress.go) -/

/-- The body text of the synthesized not-found handler. -/
def notFoundBody : String := "404 page not found"

/-- The handler `ServeHTTP` synthesizes when no route matches:
`c.Status(404); c.String(404, "404 page not found")`. -/
def notFoundHandler : Handler :=
  [Act.status 404, Act.strWrite 404 notFoundBody]

/-- The parts of Go `Engine` that `ServeHTTP` consults: global middleware,
registered error handlers (opaque, identified by number), and the per-method
route forest. -/
structure Engine : Type where
  middlewares : List Handler
  errorHandlers : List Nat
  forest : Forest

/-- The handler chain `ServeHTTP` assembles: global middleware followed by
the matched route handlers, or by the synthesized not-found handler. -/
def serveChain (eng : Engine) (node : Option RouterNode) : List Handler :=
  eng.middlewares ++
    (match node with
     | some n => n.handlers
     | none => [notFoundHandler])

/-- The error-processing epilogue of `ServeHTTP`: if the context carries a
non-nil error and error handlers are registered, invoke each of them in
registration order with the stored error. -/
def dispatchErrors (ehs : List Nat) (c : Ctx) : Ctx :=
  match c.err with
  | some v => if ehs.isEmpty then c
      else ehs.foldl (fun acc h => logEv (Ev.errHandler h v) acc) c
  | none => c

/-- Go `Engine.ServeHTTP`: resolve the route, install params, assemble the
chain, run it by a single `Next()`, then process errors. -/
def serve (fuel : Nat) (eng : Engine) (method path : String) : Option Ctx :=
  let r := getRoute eng.forest method path
  let hs := serveChain eng r.1
  match nextCall fuel hs none (initCtx r.2) with
  | none => none
  | some c1 => some (dispatchErrors eng.errorHandlers c1)


/-! ### Routers, groups, and the shared forest (router.go `Router`)

`Router.Group` copies the parent middleware slice (`make` + `copy`, capacity
equal to length, so later parent appends cannot share its backing array) but
copies the `routes` map pointer unchanged.  To make the pointer copy
observable, routers live in a world whose forests are heap cells addressed
by index; each router stores the index of its forest. -/

/-- The fields of Go `Router` consulted by `Group`, `Use` and `Handle`:
the accumulated prefix, the middleware slice, and the heap address of the
shared `routes` forest. -/
structure RouterData : Type where
  pfx : String
  middlewares : List Handler
  routesRef : Nat
deriving Repr

/-- A heap of routers (addressed by index) and forest cells. -/
structure World : Type where
  routers : List RouterData
  forests : List Forest
deriving Repr

/-- Go `Router.Group(prefix)`: allocate a child router with concatenated
prefix, a copy of the parent middleware slice taken now, and the same
`routes` reference; returns the world and the new router address. -/
def groupOp (w : World) (rid : Nat) (p : String) : World × Nat :=
  match w.routers.get? rid with
  | none => (w, 0)
  | some r =>
      ({ w with
          routers := w.routers ++
            [{ pfx := r.pfx ++ p, middlewares := r.middlewares
               routesRef := r.routesRef }] },
       w.routers.length)

/-- Go `Router.Use(middleware...)`: append to this router's middleware
slice. -/
def useOp (w : World) (rid : Nat) (ms : List Handler) : World :=
  match w.routers.get? rid with
  | none => w
  | some r =>
      { w with
        routers := w.routers.set rid
          { pfx := r.pfx, middlewares := r.middlewares ++ ms
            routesRef := r.routesRef } }

/-- Go `Router.Handle(method, pattern, handlers...)`: prepend the router
prefix (with the `pattern == "/"` special case), put the router middleware
in front of the route handlers, and insert into the shared forest. -/
def handleOp (w : World) (rid : Nat) (method pattern : String)
    (hs : List Handler) : World :=
  match w.routers.get? rid with
  | none => w
  | some r =>
      let fullPattern :=
        if !(r.pfx == "") && pattern == "/" then r.pfx else r.pfx ++ pattern
      let finalHandlers := r.middlewares ++ hs
      { w with
        forests := w.forests.set r.routesRef
          (addRoute (w.forests.getD r.routesRef []) method fullPattern
            finalHandlers) }

/-- Go `Router.getRoute` through a router address: deref the router's
forest cell and look up the request. -/
def getRouteOp (w : World) (rid : Nat) (method path : String) :
    Option RouterNode × Params :=
  match w.routers.get? rid with
  | none => (none, [])
  | some r => getRoute (w.forests.getD r.routesRef []) method path

/-! ### Event-log observations -/

/-- The record tags of a handler body, in program order. -/
def recTags (acts : List Act) : List String :=
  acts.filterMap (fun a =>
    match a with
    | Act.record t => some t
    | _ => none)

/-- The record tags appearing in an event log, in chronological order. -/
def evRecTags (l : List Ev) : List String :=
  l.filterMap (fun e =>
    match e with
    | Ev.recd t => some t
    | _ => none)

/-- The non-nil errors written to the context, in chronological order. -/
def errVals (l : List Ev) : List Nat :=
  l.filterMap (fun e =>
    match e with
    | Ev.errSet v => some v
    | _ => none)

/-- The last non-nil error written to the context, if any. -/
def lastErr (l : List Ev) : Option Nat := (errVals l).getLast?

/-- The error-handler invocations in an event log: which handler ran, with
which error, in chronological order. -/
def errHandlerPairs (l : List Ev) : List (Nat × Nat) :=
  l.filterMap (fun e =>
    match e with
    | Ev.errHandler h v => some (h, v)
    | _ => none)

/-- A handler body that never supplies a non-nil error to `Next`. -/
def errFreeB (h : Handler) : Bool :=
  h.all (fun a =>
    match a with
    | Act.callNext (some _) => false
    | _ => true)

/-! ### Concrete instances used by the claims -/

/-- Route handler registered for the literal pattern `/users/new`. -/
def hNew : Handler := [Act.record "new-handler"]

/-- Route handler registered for the parameterized pattern `/users/:id`. -/
def hId : Handler := [Act.record "id-handler"]

/-- Route handler registered for the wildcard pattern `/files/*rest`. -/
def hRest : Handler := [Act.record "rest-handler"]

/-- Tree with `/users/new` registered before `/users/:id`. -/
def treeLitFirst : RouterNode :=
  insertRoute
    (insertRoute emptyNode "/users/new" (parsePattern "/users/new") [hNew])
    "/users/:id" (parsePattern "/users/:id") [hId]

/-- Tree with `/users/:id` registered before `/users/new`. -/
def treeParamFirst : RouterNode :=
  insertRoute
    (insertRoute emptyNode "/users/:id" (parsePattern "/users/:id") [hId])
    "/users/new" (parsePattern "/users/new") [hNew]

/-- Tree with only `/users/:id` registered. -/
def treeParamOnly : RouterNode :=
  insertRoute emptyNode "/users/:id" (parsePattern "/users/:id") [hId]

/-- Tree with only `/files/*rest` registered. -/
def treeStar : RouterNode :=
  insertRoute emptyNode "/files/*rest" (parsePattern "/files/*rest") [hRest]

/-- Tree with only `/users/:id/posts` registered (used to exhibit parameter
backtracking on a failed branch). -/
def treeDeep : RouterNode :=
  insertRoute emptyNode "/users/:id/posts" (parsePattern "/users/:id/posts")
    [[Act.record "posts-handler"]]

/-- A chain whose first handler neither calls `Next` nor `Abort`. -/
def chainNoNext : List Handler := [[Act.record "h0"], [Act.record "h1"]]

/-- The onion chain of claim C3: two middlewares with before/after records
around `Next()`, then a plain handler. -/
def chainOnion : List Handler :=
  [[Act.record "mw1-before", Act.callNext none, Act.record "mw1-after"],
   [Act.record "mw2-before", Act.callNext none, Act.record "mw2-after"],
   [Act.record "handler"]]

/-- A chain whose first handler aborts and then keeps executing. -/
def chainAbort : List Handler :=
  [[Act.record "a", Act.abort, Act.record "b"], [Act.record "later"]]

/-- An engine whose route `/e` has two handlers, each supplying an error to
`Next`, and two registered error handlers. -/
def engTwoErrors : Engine :=
  { middlewares := []
    errorHandlers := [10, 20]
    forest := addRoute [] "GET" "/e"
      [[Act.callNext (some 5)], [Act.callNext (some 7)]] }

/-- An engine with no routes registered at all (every request is
unresolved). -/
def engEmpty : Engine :=
  { middlewares := [], errorHandlers := [7], forest := [] }

/-- A one-router world with one empty forest cell (the state right after
`New()`). -/
def w0 : World :=
  { routers := [{ pfx := "", middlewares := [], routesRef := 0 }]
    forests := [[]] }

/-- Parent middleware added by `Use` after the group is created. -/
def mwParent : Handler := [Act.record "parent-mw"]

/-- Route handler registered through the group in the C9 scenario. -/
def hUsers : Handler := [Act.record "users-handler"]

end Goxpress

/-! ## Theorems -/

namespace Goxpress

theorem searchRoute_nil (n : RouterNode) (ps : Params) :
    searchRoute n [] ps = (if n.pattern == "" then none else some n, ps) := rfl

theorem searchRoute_cons (n : RouterNode) (part : String) (restT : List String)
    (ps : Params) :
    searchRoute n (part :: restT) ps =
      (if strHead n.part '*' then
        (if n.pattern == "" then none else some n, ps)
      else
        childLoop (fun ch ps' => searchRoute ch restT ps') part
          (joinSlash (part :: restT)) n.children ps) := rfl

/-- Claim C1: with a literal pattern `/users/new` and a parameterized
pattern `/users/:id` registered in either order, searching `/users/new`
returns the terminal node carrying the literal pattern and the literal
route's handlers (never the parameterized route's). -/
theorem searchPrefersLiteralBothOrders :
    ((searchRoute treeLitFirst (parsePattern "/users/new") []).1.map
        RouterNode.pattern = some "/users/new" ∧
      (searchRoute treeLitFirst (parsePattern "/users/new") []).1.map
        RouterNode.handlers = some [hNew]) ∧
    ((searchRoute treeParamFirst (parsePattern "/users/new") []).1.map
        RouterNode.pattern = some "/users/new" ∧
      (searchRoute treeParamFirst (parsePattern "/users/new") []).1.map
        RouterNode.handlers = some [hNew]) :=
  ⟨⟨rfl, rfl⟩, ⟨rfl, rfl⟩⟩

/-- Claim C2: a chain whose handler at position 0 returns without calling
`Next()` and without calling `Abort()` does NOT truncate the chain: the
enclosing `Next` loop still invokes the handler at position 1 and runs its
body.  This evaluates the code at the claim's failing input; the claim (and
the repository documentation of `Next`) says processing should stop. -/
theorem chainContinuesWithoutNext :
    (chainRun 20 chainNoNext).map Ctx.log =
      some [Ev.invoked 0, Ev.recd "h0", Ev.invoked 1, Ev.recd "h1"] := rfl

/-- Claim C3: the chain [mw1, mw2, handler] with before/after records around
each middleware's `Next()` produces exactly the onion-order record sequence
mw1-before, mw2-before, handler, mw2-after, mw1-after. -/
theorem onionOrderTrace :
    (chainRun 20 chainOnion).map (fun c => evRecTags c.log) =
      some ["mw1-before", "mw2-before", "handler", "mw2-after", "mw1-after"] :=
  rfl

/-- Claim C6: with only `/users/:id` registered, `/users/42` resolves to its
terminal node binding id to 42 while `/users` is not found; with
`/files/*rest` registered, `/files/a/b/c` resolves binding rest to the
slash-joined remainder a/b/c. -/
theorem paramAndWildcardCapture :
    ((searchRoute treeParamOnly (parsePattern "/users/42") []).1.map
        RouterNode.pattern = some "/users/:id" ∧
      (searchRoute treeParamOnly (parsePattern "/users/42") []).2 =
        [("id", "42")] ∧
      mapLookup (searchRoute treeParamOnly (parsePattern "/users/42") []).2
        "id" = some "42") ∧
    (searchRoute treeParamOnly (parsePattern "/users") []).1 = none ∧
    ((searchRoute treeStar (parsePattern "/files/a/b/c") []).1.map
        RouterNode.pattern = some "/files/*rest" ∧
      mapLookup (searchRoute treeStar (parsePattern "/files/a/b/c") []).2
        "rest" = some "a/b/c") :=
  ⟨⟨rfl, rfl, rfl⟩, rfl, ⟨rfl, rfl⟩⟩

/-- Claim C10: registering `/users/:id` and then `/users/new` reuses the
wildcard `:id` child (the users node still has exactly one child, the
wildcard node), overwriting its stored pattern and handlers with the
literal route's, so that afterwards `/users/42` resolves to the literal
pattern and handlers and the parameterized route is gone. -/
theorem insertReusesWildChild :
    ((treeParamFirst.children.headD emptyNode).children.length = 1 ∧
      ((treeParamFirst.children.headD emptyNode).children.headD
          emptyNode).part = ":id" ∧
      ((treeParamFirst.children.headD emptyNode).children.headD
          emptyNode).isWild = true ∧
      ((treeParamFirst.children.headD emptyNode).children.headD
          emptyNode).pattern = "/users/new" ∧
      ((treeParamFirst.children.headD emptyNode).children.headD
          emptyNode).handlers = [hNew]) ∧
    ((searchRoute treeParamFirst (parsePattern "/users/42") []).1.map
        RouterNode.pattern = some "/users/new" ∧
      (searchRoute treeParamFirst (parsePattern "/users/42") []).1.map
        RouterNode.handlers = some [hNew]) :=
  ⟨⟨rfl, rfl, rfl, rfl, rfl⟩, ⟨rfl, rfl⟩⟩

end Goxpress

namespace Goxpress

/-! ### Params backtracking (claim C7) -/

/-- Relation between params maps across a failed search: every key either
kept its old value or was erased; no new binding was introduced. -/
def pLe (ps ps' : Params) : Prop :=
  ∀ k, mapLookup ps' k = mapLookup ps k ∨ mapLookup ps' k = none

theorem pLe_refl (ps : Params) : pLe ps ps := fun _ => Or.inl rfl

theorem pLe_trans {a b c : Params} (h1 : pLe a b) (h2 : pLe b c) : pLe a c := by
  intro k
  rcases h2 k with h | h
  · rw [h]; exact h1 k
  · exact Or.inr h

theorem mapLookup_cons (a : String × String) (t : Params) (k : String) :
    mapLookup (a :: t) k = if a.1 == k then some a.2 else mapLookup t k := by
  by_cases h : a.1 == k
  · simp [mapLookup, List.find?_cons_of_pos, h]
  · simp only [mapLookup]
    rw [List.find?_cons_of_neg _ (by simpa using h), if_neg (by simpa using h)]

theorem mapErase_cons (a : String × String) (t : Params) (k : String) :
    mapErase (a :: t) k =
      if a.1 == k then mapErase t k else a :: mapErase t k := by
  by_cases h : a.1 == k <;> simp [mapErase, List.filter_cons, h]

theorem mapLookup_erase_self (ps : Params) (k : String) :
    mapLookup (mapErase ps k) k = none := by
  induction ps with
  | nil => rfl
  | cons a t ih =>
      rw [mapErase_cons]
      by_cases h : a.1 == k
      · rw [if_pos h]; exact ih
      · rw [if_neg h, mapLookup_cons, if_neg h]; exact ih

theorem mapLookup_erase_ne (ps : Params) {k k' : String} (h : k' ≠ k) :
    mapLookup (mapErase ps k) k' = mapLookup ps k' := by
  induction ps with
  | nil => rfl
  | cons a t ih =>
      rw [mapErase_cons, mapLookup_cons]
      by_cases ha : a.1 == k
      · have hne : ¬ (a.1 == k') = true := by
          have hak : a.1 = k := by simpa using ha
          simp [hak, Ne.symm h]
        rw [if_pos ha, if_neg hne]
        exact ih
      · rw [if_neg ha, mapLookup_cons]
        by_cases ha' : a.1 == k'
        · rw [if_pos ha', if_pos ha']
        · rw [if_neg ha', if_neg ha']; exact ih

theorem mapLookup_set_self (ps : Params) (k v : String) :
    mapLookup (mapSet ps k v) k = some v := by
  rw [mapSet, mapLookup_cons, if_pos (by simp)]

theorem mapLookup_set_ne (ps : Params) {k key : String} (v : String)
    (h : k ≠ key) :
    mapLookup (mapSet ps key v) k = mapLookup ps k := by
  rw [mapSet, mapLookup_cons, if_neg (by simp [Ne.symm h])]
  exact mapLookup_erase_ne ps h

theorem eqNilOfLookupNone (ps : Params) (h : ∀ k, mapLookup ps k = none) :
    ps = [] := by
  cases ps with
  | nil => rfl
  | cons a t =>
      have := h a.1
      rw [mapLookup_cons, if_pos (by simp)] at this
      exact absurd this (by simp)

end Goxpress

namespace Goxpress

theorem childLoop_none (recur : RouterNode → Params → Option RouterNode × Params)
    (part joined : String)
    (hrec : ∀ ch ps ps', recur ch ps = (none, ps') → pLe ps ps') :
    ∀ (cs : List RouterNode) (ps ps' : Params),
      childLoop recur part joined cs ps = (none, ps') → pLe ps ps' := by
  intro cs
  induction cs with
  | nil =>
      intro ps ps' h
      simp only [childLoop, Prod.mk.injEq] at h
      obtain ⟨-, h2⟩ := h
      subst h2
      exact pLe_refl ps
  | cons ch rest ih =>
      intro ps ps' h
      simp only [childLoop] at h
      by_cases hm : (ch.part == part || ch.isWild) = true
      · rw [if_pos hm] at h
        by_cases hcolon : (ch.isWild && strHead ch.part ':') = true
        · rw [if_pos hcolon] at h
          rcases hr : recur ch (mapSet ps (strTail ch.part) part) with ⟨r1, ps2⟩
          rw [hr] at h
          cases r1 with
          | some x => simp at h
          | none =>
              have h1 := hrec ch (mapSet ps (strTail ch.part) part) ps2 hr
              have h2 := ih _ _ h
              refine pLe_trans (fun k => ?_) h2
              by_cases hk : k = strTail ch.part
              · subst hk; exact Or.inr (mapLookup_erase_self ps2 _)
              · rw [mapLookup_erase_ne ps2 hk]
                rcases h1 k with h3 | h3
                · left; rw [h3, mapLookup_set_ne ps part hk]
                · right; exact h3
        · rw [if_neg hcolon] at h
          by_cases hstar : (ch.isWild && strHead ch.part '*') = true
          · rw [if_pos hstar] at h
            simp at h
          · rw [if_neg hstar] at h
            rcases hr : recur ch ps with ⟨r1, ps2⟩
            rw [hr] at h
            cases r1 with
            | some x => simp at h
            | none => exact pLe_trans (hrec ch ps ps2 hr) (ih _ _ h)
      · rw [if_neg hm] at h
        exact ih _ _ h

theorem searchRoute_none :
    ∀ (rest : List String) (n : RouterNode) (ps ps' : Params),
      searchRoute n rest ps = (none, ps') → pLe ps ps' := by
  intro rest
  induction rest with
  | nil =>
      intro n ps ps' h
      rw [searchRoute_nil] at h
      have h2 := congrArg Prod.snd h
      simp at h2
      subst h2
      exact pLe_refl ps
  | cons part restT ih =>
      intro n ps ps' h
      rw [searchRoute_cons] at h
      by_cases hstar : strHead n.part '*' = true
      · rw [if_pos hstar] at h
        have h2 := congrArg Prod.snd h
        simp at h2
        subst h2
        exact pLe_refl ps
      · rw [if_neg hstar] at h
        exact childLoop_none _ part _ (fun ch ps1 ps1' hh => ih ch ps1 ps1' hh)
          n.children ps ps' h

/-- Claim C7: a failed search leaves the params map exactly as it started
(`getRoute` always starts the search from an empty map): every binding made
while exploring a branch that fails is unbound before the next candidate is
tried, so nothing leaks from a failed branch. -/
theorem failedSearchLeavesParamsUnchanged (n : RouterNode)
    (rest : List String) (ps' : Params)
    (h : searchRoute n rest [] = (none, ps')) : ps' = [] := by
  refine eqNilOfLookupNone ps' (fun k => ?_)
  rcases searchRoute_none rest n [] ps' h k with h1 | h1
  · rw [h1]; rfl
  · exact h1

/-- Witness for claim C7: the search for `/users/42/nope` in the tree of
`/users/:id/posts` binds id to 42, fails below it, and returns an empty
params map. -/
theorem failedSearchLeavesParamsUnchangedWitness :
    searchRoute treeDeep (parsePattern "/users/42/nope") [] =
      ((none : Option RouterNode), ([] : Params)) ∧ ([] : Params) = [] :=
  ⟨rfl,
    failedSearchLeavesParamsUnchanged treeDeep
      (parsePattern "/users/42/nope") [] rfl⟩

end Goxpress

namespace Goxpress

/-! ### Abort discipline (claim C5) -/

theorem concatInj {α : Type} {a b : List α} {x y : α}
    (h : a ++ [x] = b ++ [y]) : a = b ∧ x = y := by
  have h1 := congrArg List.reverse h
  simp only [List.reverse_append, List.reverse_singleton, List.singleton_append,
    List.cons.injEq] at h1
  exact ⟨List.reverse_inj.mp h1.2, h1.1⟩

/-- No handler invocation appears after any abort event in the log. -/
def noInvokeAfter (l : List Ev) : Prop :=
  ∀ l1 l2 i, l = l1 ++ Ev.abortSet :: l2 → Ev.invoked i ∉ l2

theorem noInvokeAfter_nil : noInvokeAfter [] := by
  intro l1 l2 i h
  exact absurd h.symm (by simp)

theorem noInvokeAfter_append_nonInvoke {l : List Ev} (hl : noInvokeAfter l)
    {e : Ev} (he : ∀ i, e ≠ Ev.invoked i) : noInvokeAfter (l ++ [e]) := by
  intro l1 l2 i h
  rcases List.eq_nil_or_concat l2 with rfl | ⟨l2', x, rfl⟩
  · simp
  · simp only [List.concat_eq_append] at h ⊢
    rw [show l1 ++ Ev.abortSet :: (l2' ++ [x]) =
        (l1 ++ Ev.abortSet :: l2') ++ [x] by simp] at h
    obtain ⟨h1, h2⟩ := concatInj h
    intro hmem
    rcases List.mem_append.mp hmem with hmem | hmem
    · exact hl l1 l2' i h1 hmem
    · rcases List.mem_singleton.mp hmem with rfl
      exact he i h2

theorem noInvokeAfter_append_invoke {l : List Ev} (hl : noInvokeAfter l)
    (hab : Ev.abortSet ∉ l) (i0 : Nat) :
    noInvokeAfter (l ++ [Ev.invoked i0]) := by
  intro l1 l2 i h
  rcases List.eq_nil_or_concat l2 with rfl | ⟨l2', x, rfl⟩
  · simp
  · simp only [List.concat_eq_append] at h ⊢
    rw [show l1 ++ Ev.abortSet :: (l2' ++ [x]) =
        (l1 ++ Ev.abortSet :: l2') ++ [x] by simp] at h
    obtain ⟨h1, -⟩ := concatInj h
    exact absurd (h1 ▸ List.mem_append_right l1 (List.mem_cons_self _ _)) hab

/-- The abort invariant: the abort flag agrees with the log (no abort event
while the flag is down), and no invocation follows an abort event. -/
def AbortInv (c : Ctx) : Prop :=
  (c.aborted = false → Ev.abortSet ∉ c.log) ∧ noInvokeAfter c.log

theorem abortInv_initCtx (ps : Params) : AbortInv (initCtx ps) :=
  ⟨fun _ => by simp [initCtx], noInvokeAfter_nil⟩

theorem abortInv_logEv_safe {c : Ctx} (e : Ev) (he : ∀ i, e ≠ Ev.invoked i)
    (hne : e ≠ Ev.abortSet) (hc : AbortInv c) : AbortInv (logEv e c) := by
  refine ⟨fun hf => ?_, noInvokeAfter_append_nonInvoke hc.2 he⟩
  simp only [logEv, List.mem_append, List.mem_singleton]
  rintro (hmem | rfl)
  · exact hc.1 hf hmem
  · exact hne rfl

theorem abortInv_abortOp {c : Ctx} (hc : AbortInv c) :
    AbortInv (logEv Ev.abortSet { c with aborted := true }) := by
  refine ⟨fun hf => ?_, noInvokeAfter_append_nonInvoke hc.2 (by intro i h; cases h)⟩
  exact absurd hf (by simp [logEv])

theorem abortInv_invoke {c : Ctx} (i : Nat) (hfalse : c.aborted = false)
    (hc : AbortInv c) : AbortInv (logEv (Ev.invoked i) c) := by
  refine ⟨fun hf => ?_, noInvokeAfter_append_invoke hc.2 (hc.1 hfalse) i⟩
  simp only [logEv, List.mem_append, List.mem_singleton]
  rintro (hmem | h)
  · exact hc.1 hfalse hmem
  · cases h

theorem abortInv_congr {c c' : Ctx} (ha : c'.aborted = c.aborted)
    (hl : c'.log = c.log) (hc : AbortInv c) : AbortInv c' := by
  refine ⟨fun hf => ?_, hl ▸ hc.2⟩
  rw [hl]
  exact hc.1 (ha ▸ hf)

theorem abortInv_applyErr {c : Ctx} (e : Option Nat) (hc : AbortInv c) :
    AbortInv (applyErr e c) := by
  cases e with
  | none => exact hc
  | some v =>
      exact abortInv_logEv_safe (Ev.errSet v) (by intro i h; cases h)
        (by intro h; cases h) hc

theorem abortInv_bumpIndex {c : Ctx} (hc : AbortInv c) :
    AbortInv (bumpIndex c) := abortInv_congr rfl rfl hc

theorem abortInv_statusOp {c : Ctx} (k : Nat) (hc : AbortInv c) :
    AbortInv (statusOp k c) := by
  unfold statusOp
  by_cases h : c.statusCodeWritten <;> simp [h] <;>
    exact abortInv_congr rfl rfl hc

theorem abortInv_strWriteOp {c : Ctx} (k : Nat) (s : String) (hc : AbortInv c) :
    AbortInv (strWriteOp k s c) := by
  unfold strWriteOp
  exact abortInv_congr rfl rfl (abortInv_statusOp k hc)

theorem runHandler_abortInv (cont : Option Nat → Ctx → Option Ctx)
    (hcont : ∀ e c c', AbortInv c → cont e c = some c' → AbortInv c') :
    ∀ (acts : List Act) (c c' : Ctx), AbortInv c →
      runHandler cont acts c = some c' → AbortInv c' := by
  intro acts
  induction acts with
  | nil =>
      intro c c' hc h
      simp only [runHandler] at h
      injection h with h
      exact h ▸ hc
  | cons a rest ih =>
      intro c c' hc h
      cases a with
      | record t =>
          exact ih _ _ (abortInv_logEv_safe _ (by intro i hh; cases hh)
            (by intro hh; cases hh) hc) h
      | abort => exact ih _ _ (abortInv_abortOp hc) h
      | status k => exact ih _ _ (abortInv_statusOp k hc) h
      | strWrite k s => exact ih _ _ (abortInv_strWriteOp k s hc) h
      | callNext e =>
          simp only [runHandler] at h
          rcases hr : cont e c with _ | c2
          · rw [hr] at h; exact absurd h (by simp)
          · rw [hr] at h
            exact ih _ _ (hcont e c c2 hc hr) h

theorem runLoop_abortInv :
    ∀ (fuel : Nat) (hs : List Handler) (c c' : Ctx),
      AbortInv c → runLoop fuel hs c = some c' → AbortInv c' := by
  intro fuel
  induction fuel with
  | zero => intro hs c c' _ h; simp [runLoop] at h
  | succ f ih =>
      intro hs c c' hc h
      simp only [runLoop] at h
      by_cases hb : c.index < (hs.length : Int)
      · rw [if_pos hb] at h
        by_cases ha : c.aborted = true
        · rw [if_pos ha] at h
          injection h with h
          exact h ▸ hc
        · rw [if_neg ha] at h
          rcases hr :
              runHandler (fun e c2 => runLoop f hs (bumpIndex (applyErr e c2)))
                (hs.getD c.index.toNat [])
                (logEv (Ev.invoked c.index.toNat) c) with _ | c2
          · rw [hr] at h; exact absurd h (by simp)
          · rw [hr] at h
            have hc2 : AbortInv c2 :=
              runHandler_abortInv _
                (fun e d d' hd hh =>
                  ih hs _ _ (abortInv_bumpIndex (abortInv_applyErr e hd)) hh)
                _ _ _
                (abortInv_invoke _ (Bool.not_eq_true _ ▸ ha) hc) hr
            exact ih hs _ _ (abortInv_bumpIndex hc2) h
      · rw [if_neg hb] at h
        injection h with h
        exact h ▸ hc

end Goxpress

namespace Goxpress

theorem statusOp_log (k : Nat) (c : Ctx) : (statusOp k c).log = c.log := by
  unfold statusOp
  by_cases h : c.statusCodeWritten <;> simp [h]

theorem strWriteOp_log (k : Nat) (s : String) (c : Ctx) :
    (strWriteOp k s c).log = c.log := by
  unfold strWriteOp
  simp [statusOp_log]

theorem recTags_record (t : String) (rest : List Act) :
    recTags (Act.record t :: rest) = t :: recTags rest := rfl

theorem recTags_callNext (e : Option Nat) (rest : List Act) :
    recTags (Act.callNext e :: rest) = recTags rest := rfl

theorem recTags_abort (rest : List Act) :
    recTags (Act.abort :: rest) = recTags rest := rfl

theorem recTags_status (k : Nat) (rest : List Act) :
    recTags (Act.status k :: rest) = recTags rest := rfl

theorem recTags_strWrite (k : Nat) (s : String) (rest : List Act) :
    recTags (Act.strWrite k s :: rest) = recTags rest := rfl

theorem evRecTags_recd (t : String) (l : List Ev) :
    evRecTags (Ev.recd t :: l) = t :: evRecTags l := rfl

theorem evRecTags_abortSet (l : List Ev) :
    evRecTags (Ev.abortSet :: l) = evRecTags l := rfl

theorem evRecTags_append (a b : List Ev) :
    evRecTags (a ++ b) = evRecTags a ++ evRecTags b := by
  simp [evRecTags, List.filterMap_append]

/-- Running a handler body only appends to the log, and the appended segment
contains every record tag of the body, in order — in particular the tags
recorded after an `Abort()` in the same body. -/
theorem runHandler_log_extends (cont : Option Nat → Ctx → Option Ctx)
    (hcont : ∀ e d d', cont e d = some d' → ∃ t, d'.log = d.log ++ t) :
    ∀ (acts : List Act) (c c' : Ctx),
      runHandler cont acts c = some c' →
      ∃ t, c'.log = c.log ++ t ∧ List.Sublist (recTags acts) (evRecTags t) := by
  intro acts
  induction acts with
  | nil =>
      intro c c' h
      simp only [runHandler] at h
      injection h with h
      exact ⟨[], by simp [h.symm], by simp [recTags]⟩
  | cons a rest ih =>
      intro c c' h
      cases a with
      | record t =>
          obtain ⟨t1, ht1, hsub⟩ := ih (logEv (Ev.recd t) c) c' h
          refine ⟨Ev.recd t :: t1, ?_, ?_⟩
          · simp [logEv] at ht1
            simp [ht1]
          · rw [recTags_record, evRecTags_recd]
            exact List.Sublist.cons₂ t hsub
      | abort =>
          obtain ⟨t1, ht1, hsub⟩ := ih _ c' h
          refine ⟨Ev.abortSet :: t1, ?_, ?_⟩
          · simp [logEv] at ht1
            simp [ht1]
          · rw [recTags_abort, evRecTags_abortSet]
            exact hsub
      | status k =>
          obtain ⟨t1, ht1, hsub⟩ := ih _ c' h
          rw [statusOp_log] at ht1
          exact ⟨t1, ht1, recTags_status k rest ▸ hsub⟩
      | strWrite k s =>
          obtain ⟨t1, ht1, hsub⟩ := ih _ c' h
          rw [strWriteOp_log] at ht1
          exact ⟨t1, ht1, recTags_strWrite k s rest ▸ hsub⟩
      | callNext e =>
          simp only [runHandler] at h
          rcases hr : cont e c with _ | c2
          · rw [hr] at h; exact absurd h (by simp)
          · rw [hr] at h
            obtain ⟨t0, ht0⟩ := hcont e c c2 hr
            obtain ⟨t1, ht1, hsub⟩ := ih c2 c' h
            refine ⟨t0 ++ t1, ?_, ?_⟩
            · rw [ht1, ht0, List.append_assoc]
            · rw [recTags_callNext, evRecTags_append]
              exact hsub.trans (List.sublist_append_right _ _)

theorem runLoop_log_mono :
    ∀ (fuel : Nat) (hs : List Handler) (c c' : Ctx),
      runLoop fuel hs c = some c' → ∃ t, c'.log = c.log ++ t := by
  intro fuel
  induction fuel with
  | zero => intro hs c c' h; simp [runLoop] at h
  | succ f ih =>
      intro hs c c' h
      simp only [runLoop] at h
      by_cases hb : c.index < (hs.length : Int)
      · rw [if_pos hb] at h
        by_cases ha : c.aborted = true
        · rw [if_pos ha] at h
          injection h with h
          exact ⟨[], by simp [h.symm]⟩
        · rw [if_neg ha] at h
          rcases hr :
              runHandler (fun e c2 => runLoop f hs (bumpIndex (applyErr e c2)))
                (hs.getD c.index.toNat [])
                (logEv (Ev.invoked c.index.toNat) c) with _ | c2
          · rw [hr] at h; exact absurd h (by simp)
          · rw [hr] at h
            have hmono : ∀ e d d',
                runLoop f hs (bumpIndex (applyErr e d)) = some d' →
                  ∃ t, d'.log = d.log ++ t := by
              intro e d d' hh
              obtain ⟨t, ht⟩ := ih hs _ _ hh
              cases e with
              | none => exact ⟨t, by simpa [bumpIndex, applyErr] using ht⟩
              | some v =>
                  exact ⟨Ev.errSet v :: t, by
                    simpa [bumpIndex, applyErr] using ht⟩
            obtain ⟨t1, ht1, -⟩ := runHandler_log_extends _ hmono _ _ _ hr
            obtain ⟨t2, ht2⟩ := ih hs _ _ h
            refine ⟨(Ev.invoked c.index.toNat :: t1) ++ t2, ?_⟩
            simp only [bumpIndex] at ht2
            rw [ht2, ht1]
            simp [logEv]
      · rw [if_neg hb] at h
        injection h with h
        exact ⟨[], by simp [h.symm]⟩

end Goxpress

namespace Goxpress

/-- Claim C5: (a) in any completed chain execution, once `Abort()` has been
called no handler at a later cursor position is invoked afterwards, in the
current or any enclosing `Next` loop: the final log never shows an
invocation after an abort event; (b) `Abort()` does not interrupt the
currently executing handler: running any handler body appends a log segment
containing every record tag of the body in order, including those after an
`Abort()` in the same body. -/
theorem abortStopsLaterHandlers :
    (∀ (fuel : Nat) (hs : List Handler) (c' : Ctx),
        chainRun fuel hs = some c' →
        ∀ l1 l2 i, c'.log = l1 ++ Ev.abortSet :: l2 → Ev.invoked i ∉ l2) ∧
    (∀ (cont : Option Nat → Ctx → Option Ctx) (acts : List Act) (c c' : Ctx),
        (∀ e d d', cont e d = some d' → ∃ t, d'.log = d.log ++ t) →
        runHandler cont acts c = some c' →
        ∃ t, c'.log = c.log ++ t ∧
          List.Sublist (recTags acts) (evRecTags t)) := by
  constructor
  · intro fuel hs c' h l1 l2 i hlog
    have hinv : AbortInv c' := by
      unfold chainRun nextCall at h
      exact runLoop_abortInv fuel hs _ c'
        (abortInv_bumpIndex (abortInv_applyErr none (abortInv_initCtx [])))
        h
    exact hinv.2 l1 l2 i hlog
  · intro cont acts c c' hcont h
    exact runHandler_log_extends cont hcont acts c c' h

/-- Witness for claim C5 at the chain `chainAbort`: handler 0 records "a",
aborts, then still records "b" (post-abort statement executed), and handler
1 is never invoked after the abort event. -/
theorem abortStopsLaterHandlersWitness :
    Ev.invoked 1 ∉ [Ev.recd "b"] ∧
    (∃ t,
      ((runHandler (fun _ d => some d)
          [Act.record "a", Act.abort, Act.record "b"]
          (initCtx [])).getD (initCtx [])).log = (initCtx []).log ++ t ∧
      List.Sublist (recTags [Act.record "a", Act.abort, Act.record "b"])
        (evRecTags t)) := by
  constructor
  · exact abortStopsLaterHandlers.1 20 chainAbort
      ((chainRun 20 chainAbort).getD (initCtx [])) rfl
      [Ev.invoked 0, Ev.recd "a"] [Ev.recd "b"] 1 rfl
  · exact abortStopsLaterHandlers.2 (fun _ d => some d)
      [Act.record "a", Act.abort, Act.record "b"] (initCtx []) _
      (fun e d d' hh => ⟨[], by cases hh; simp⟩) rfl

end Goxpress

namespace Goxpress

/-! ### Error storage and dispatch (claims C4 and C8) -/

theorem errVals_append (a b : List Ev) :
    errVals (a ++ b) = errVals a ++ errVals b := by
  simp [errVals, List.filterMap_append]

theorem errHandlerPairs_append (a b : List Ev) :
    errHandlerPairs (a ++ b) = errHandlerPairs a ++ errHandlerPairs b := by
  simp [errHandlerPairs, List.filterMap_append]

theorem lastErr_append_errSet (l : List Ev) (v : Nat) :
    lastErr (l ++ [Ev.errSet v]) = some v := by
  unfold lastErr
  rw [errVals_append]
  have : errVals [Ev.errSet v] = [v] := rfl
  rw [this, List.getLast?_concat]

theorem lastErr_append_noErrVals {t : List Ev} (h : errVals t = [])
    (l : List Ev) : lastErr (l ++ t) = lastErr l := by
  unfold lastErr
  rw [errVals_append, h, List.append_nil]

/-- The invariant maintained along a chain execution: the stored error is
the last error event of the log, and no error-handler invocation has been
logged yet. -/
def ChainInv (c : Ctx) : Prop :=
  c.err = lastErr c.log ∧ errHandlerPairs c.log = []

theorem chainInv_initCtx (ps : Params) : ChainInv (initCtx ps) := ⟨rfl, rfl⟩

theorem chainInv_logEv_plain {c : Ctx} (e : Ev)
    (he : errVals [e] = []) (hp : errHandlerPairs [e] = [])
    (hc : ChainInv c) : ChainInv (logEv e c) := by
  constructor
  · show c.err = lastErr (c.log ++ [e])
    rw [lastErr_append_noErrVals he]
    exact hc.1
  · show errHandlerPairs (c.log ++ [e]) = []
    rw [errHandlerPairs_append, hc.2, hp, List.append_nil]

theorem chainInv_congr {c c' : Ctx} (he : c'.err = c.err)
    (hl : c'.log = c.log) (hc : ChainInv c) : ChainInv c' := by
  constructor
  · rw [he, hl]; exact hc.1
  · rw [hl]; exact hc.2

theorem chainInv_applyErr {c : Ctx} (e : Option Nat) (hc : ChainInv c) :
    ChainInv (applyErr e c) := by
  cases e with
  | none => exact hc
  | some v =>
      constructor
      · show some v = lastErr (c.log ++ [Ev.errSet v])
        rw [lastErr_append_errSet]
      · show errHandlerPairs (c.log ++ [Ev.errSet v]) = []
        rw [errHandlerPairs_append, hc.2]
        rfl

theorem statusOp_err (k : Nat) (c : Ctx) : (statusOp k c).err = c.err := by
  unfold statusOp
  by_cases h : c.statusCodeWritten <;> simp [h]

theorem strWriteOp_err (k : Nat) (s : String) (c : Ctx) :
    (strWriteOp k s c).err = c.err := by
  unfold strWriteOp
  simp [statusOp_err]

theorem chainInv_bumpIndex {c : Ctx} (hc : ChainInv c) :
    ChainInv (bumpIndex c) := chainInv_congr rfl rfl hc

theorem runHandler_chainInv (cont : Option Nat → Ctx → Option Ctx)
    (hcont : ∀ e c c', ChainInv c → cont e c = some c' → ChainInv c') :
    ∀ (acts : List Act) (c c' : Ctx), ChainInv c →
      runHandler cont acts c = some c' → ChainInv c' := by
  intro acts
  induction acts with
  | nil =>
      intro c c' hc h
      simp only [runHandler] at h
      injection h with h
      exact h ▸ hc
  | cons a rest ih =>
      intro c c' hc h
      cases a with
      | record t => exact ih _ _ (chainInv_logEv_plain (Ev.recd t) rfl rfl hc) h
      | abort =>
          refine ih _ _ ?_ h
          refine chainInv_logEv_plain Ev.abortSet rfl rfl ?_
          exact chainInv_congr rfl rfl hc
      | status k =>
          exact ih _ _ (chainInv_congr (statusOp_err k c) (statusOp_log k c) hc) h
      | strWrite k s =>
          exact ih _ _
            (chainInv_congr (strWriteOp_err k s c) (strWriteOp_log k s c) hc) h
      | callNext e =>
          simp only [runHandler] at h
          rcases hr : cont e c with _ | c2
          · rw [hr] at h; exact absurd h (by simp)
          · rw [hr] at h
            exact ih _ _ (hcont e c c2 hc hr) h

theorem runLoop_chainInv :
    ∀ (fuel : Nat) (hs : List Handler) (c c' : Ctx),
      ChainInv c → runLoop fuel hs c = some c' → ChainInv c' := by
  intro fuel
  induction fuel with
  | zero => intro hs c c' _ h; simp [runLoop] at h
  | succ f ih =>
      intro hs c c' hc h
      simp only [runLoop] at h
      by_cases hb : c.index < (hs.length : Int)
      · rw [if_pos hb] at h
        by_cases ha : c.aborted = true
        · rw [if_pos ha] at h
          injection h with h
          exact h ▸ hc
        · rw [if_neg ha] at h
          rcases hr :
              runHandler (fun e c2 => runLoop f hs (bumpIndex (applyErr e c2)))
                (hs.getD c.index.toNat [])
                (logEv (Ev.invoked c.index.toNat) c) with _ | c2
          · rw [hr] at h; exact absurd h (by simp)
          · rw [hr] at h
            have hc2 : ChainInv c2 :=
              runHandler_chainInv _
                (fun e d d' hd hh =>
                  ih hs _ _ (chainInv_bumpIndex (chainInv_applyErr e hd)) hh)
                _ _ _ (chainInv_logEv_plain (Ev.invoked c.index.toNat) rfl rfl hc) hr
            exact ih hs _ _ (chainInv_bumpIndex hc2) h
      · rw [if_neg hb] at h
        injection h with h
        exact h ▸ hc

theorem dispatchFoldl_eq (ehs : List Nat) (v : Nat) :
    ∀ (c : Ctx),
      ehs.foldl (fun acc h => logEv (Ev.errHandler h v) acc) c =
        { c with log := c.log ++ ehs.map (fun h => Ev.errHandler h v) } := by
  induction ehs with
  | nil => intro c; simp
  | cons h0 t ih =>
      intro c
      simp only [List.foldl_cons, List.map_cons]
      rw [ih]
      simp [logEv]

theorem dispatchErrors_spec (ehs : List Nat) (c : Ctx) :
    (dispatchErrors ehs c).err = c.err ∧
    (dispatchErrors ehs c).log = c.log ++
      (match c.err with
       | some v =>
           if ehs.isEmpty then []
           else ehs.map (fun h => Ev.errHandler h v)
       | none => []) := by
  rcases hc : c.err with _ | v
  · constructor <;> simp [dispatchErrors, hc]
  · by_cases he : ehs.isEmpty
    · constructor <;> simp [dispatchErrors, hc, he]
    · constructor <;> simp [dispatchErrors, hc, he, dispatchFoldl_eq]

theorem errVals_map_errHandler (ehs : List Nat) (v : Nat) :
    errVals (ehs.map (fun h => Ev.errHandler h v)) = [] := by
  induction ehs with
  | nil => rfl
  | cons h0 t ih => exact ih

theorem errHandlerPairs_map_errHandler (ehs : List Nat) (v : Nat) :
    errHandlerPairs (ehs.map (fun h => Ev.errHandler h v)) =
      ehs.map (fun h => (h, v)) := by
  induction ehs with
  | nil => rfl
  | cons h0 t ih =>
      show (h0, v) :: errHandlerPairs (t.map fun h => Ev.errHandler h v) = _
      rw [ih, List.map_cons]

end Goxpress

namespace Goxpress

/-- Claim C4: in any completed request execution, the stored error equals
the last non-nil error supplied to `Next` (last writer wins, no
accumulation), and the error handlers invoked after the chain are exactly
the registered ones, each exactly once, in registration order, each
receiving the stored error — and none when the error is nil or no handler
is registered. -/
theorem lastErrorWinsAndAllErrorHandlersRun :
    ∀ (fuel : Nat) (eng : Engine) (method path : String) (c' : Ctx),
      serve fuel eng method path = some c' →
      c'.err = lastErr c'.log ∧
      errHandlerPairs c'.log =
        (match c'.err with
         | some v =>
             if eng.errorHandlers.isEmpty then []
             else eng.errorHandlers.map (fun h => (h, v))
         | none => []) := by
  intro fuel eng method path c' h
  simp only [serve] at h
  rcases hr : nextCall fuel
      (serveChain eng (getRoute eng.forest method path).1)
      none (initCtx (getRoute eng.forest method path).2) with _ | c1
  · rw [hr] at h; exact absurd h (by simp)
  · rw [hr] at h
    injection h with h
    subst h
    have hinv : ChainInv c1 := by
      unfold nextCall at hr
      exact runLoop_chainInv fuel _ _ c1
        (chainInv_bumpIndex (chainInv_applyErr none (chainInv_initCtx _))) hr
    obtain ⟨he, hl⟩ := dispatchErrors_spec eng.errorHandlers c1
    rcases hc1 : c1.err with _ | v
    · simp only [hc1] at hl
      rw [List.append_nil] at hl
      constructor
      · rw [he, hl, hc1]
        exact hc1 ▸ hinv.1
      · rw [hl, he, hc1]
        exact hinv.2
    · simp only [hc1] at hl
      by_cases he2 : eng.errorHandlers.isEmpty
      · rw [if_pos he2, List.append_nil] at hl
        constructor
        · rw [he, hl]; exact hinv.1
        · rw [hl, he, hc1]
          simp [he2, hinv.2]
      · rw [if_neg he2] at hl
        constructor
        · rw [he, hl,
            lastErr_append_noErrVals (errVals_map_errHandler _ v) c1.log]
          exact hinv.1
        · rw [hl, errHandlerPairs_append, hinv.2,
            errHandlerPairs_map_errHandler, he, hc1]
          simp [he2]

/-- Witness for claim C4 at `engTwoErrors`: the route handlers write errors
5 then 7; the stored error ends as 7 and both error handlers 10 and 20 run
once, in order, with error 7. -/
theorem lastErrorWinsAndAllErrorHandlersRunWitness :
    ((serve 20 engTwoErrors "GET" "/e").getD (initCtx [])).err =
        lastErr ((serve 20 engTwoErrors "GET" "/e").getD (initCtx [])).log ∧
    errHandlerPairs
        ((serve 20 engTwoErrors "GET" "/e").getD (initCtx [])).log =
      (match ((serve 20 engTwoErrors "GET" "/e").getD (initCtx [])).err with
       | some v =>
           if engTwoErrors.errorHandlers.isEmpty then []
           else engTwoErrors.errorHandlers.map (fun h => (h, v))
       | none => []) :=
  lastErrorWinsAndAllErrorHandlersRun 20 engTwoErrors "GET" "/e" _ rfl

end Goxpress

namespace Goxpress

theorem errFreeB_getD {hs : List Handler}
    (hall : ∀ h ∈ hs, errFreeB h = true) (i : Nat) :
    errFreeB (hs.getD i []) = true := by
  induction hs generalizing i with
  | nil => cases i <;> rfl
  | cons a t ih =>
      cases i with
      | zero => exact hall a (List.mem_cons_self a t)
      | succ j => exact ih (fun h hm => hall h (List.mem_cons_of_mem a hm)) j

theorem runHandler_errFree (cont : Option Nat → Ctx → Option Ctx)
    (hcont : ∀ c c2, cont none c = some c2 → c2.err = c.err) :
    ∀ (acts : List Act), errFreeB acts = true →
      ∀ (c c' : Ctx), runHandler cont acts c = some c' → c'.err = c.err := by
  intro acts
  induction acts with
  | nil =>
      intro _ c c' h
      simp only [runHandler] at h
      injection h with h
      rw [← h]
  | cons a rest ih =>
      intro hfree c c' h
      have hfree' : errFreeB rest = true := by
        simp only [errFreeB, List.all_cons, Bool.and_eq_true] at hfree
        exact hfree.2
      cases a with
      | record t => rw [ih hfree' _ _ h]; rfl
      | abort => rw [ih hfree' _ _ h]; rfl
      | status k => rw [ih hfree' _ _ h, statusOp_err]
      | strWrite k s => rw [ih hfree' _ _ h, strWriteOp_err]
      | callNext e =>
          cases e with
          | some v => simp [errFreeB] at hfree
          | none =>
              simp only [runHandler] at h
              rcases hr : cont none c with _ | c2
              · rw [hr] at h; exact absurd h (by simp)
              · rw [hr] at h
                rw [ih hfree' _ _ h, hcont c c2 hr]

theorem runLoop_errFree :
    ∀ (fuel : Nat) (hs : List Handler),
      (∀ h ∈ hs, errFreeB h = true) →
      ∀ (c c' : Ctx), runLoop fuel hs c = some c' → c'.err = c.err := by
  intro fuel
  induction fuel with
  | zero => intro hs _ c c' h; simp [runLoop] at h
  | succ f ih =>
      intro hs hall c c' h
      simp only [runLoop] at h
      by_cases hb : c.index < (hs.length : Int)
      · rw [if_pos hb] at h
        by_cases ha : c.aborted = true
        · rw [if_pos ha] at h
          injection h with h
          rw [← h]
        · rw [if_neg ha] at h
          rcases hr :
              runHandler (fun e c2 => runLoop f hs (bumpIndex (applyErr e c2)))
                (hs.getD c.index.toNat [])
                (logEv (Ev.invoked c.index.toNat) c) with _ | c2
          · rw [hr] at h; exact absurd h (by simp)
          · rw [hr] at h
            have h2 : c2.err = c.err := by
              have := runHandler_errFree _
                (fun d d2 hh => by
                  have := ih hs hall _ _ hh
                  simpa [bumpIndex, applyErr] using this)
                _ (errFreeB_getD hall c.index.toNat) _ _ hr
              simpa [logEv] using this
            rw [ih hs hall _ _ h]
            simpa [bumpIndex] using h2
      · rw [if_neg hb] at h
        injection h with h
        rw [← h]

/-- Claim C8: for an unresolved request, the chain `ServeHTTP` runs is the
global middleware followed by the single synthesized not-found handler; the
synthesized handler (run from any state whose status is unwritten) writes
status 404 with the fixed body; this path records no error, so (middleware
not injecting errors) the stored error stays nil and no registered error
handler is invoked. -/
theorem notFoundPathRunsNoErrorHandlers :
    ∀ (fuel : Nat) (eng : Engine) (method path : String) (c' : Ctx),
      (getRoute eng.forest method path).1 = none →
      (∀ h ∈ eng.middlewares, errFreeB h = true) →
      serve fuel eng method path = some c' →
      serveChain eng (getRoute eng.forest method path).1 =
        eng.middlewares ++ [notFoundHandler] ∧
      c'.err = none ∧
      errHandlerPairs c'.log = [] ∧
      (∀ (cont : Option Nat → Ctx → Option Ctx) (c : Ctx),
          c.statusCodeWritten = false →
          runHandler cont notFoundHandler c =
            some { c with statusCodeWritten := true, statusCode := some 404,
                          body := c.body ++ [notFoundBody] }) := by
  intro fuel eng method path c' hnone hfree h
  simp only [serve] at h
  rcases hr : nextCall fuel
      (serveChain eng (getRoute eng.forest method path).1)
      none (initCtx (getRoute eng.forest method path).2) with _ | c1
  · rw [hr] at h; exact absurd h (by simp)
  · rw [hr] at h
    injection h with h
    subst h
    have hchain : serveChain eng (getRoute eng.forest method path).1 =
        eng.middlewares ++ [notFoundHandler] := by
      rw [hnone]; rfl
    have hallfree : ∀ hh ∈ serveChain eng (getRoute eng.forest method path).1,
        errFreeB hh = true := by
      rw [hchain]
      intro hh hm
      rcases List.mem_append.mp hm with hm | hm
      · exact hfree hh hm
      · rcases List.mem_singleton.mp hm with rfl
        rfl
    have herr1 : c1.err = none := by
      unfold nextCall at hr
      have := runLoop_errFree fuel _ hallfree _ _ hr
      simpa [bumpIndex, applyErr, initCtx] using this
    have hinv : ChainInv c1 := by
      unfold nextCall at hr
      exact runLoop_chainInv fuel _ _ c1
        (chainInv_bumpIndex (chainInv_applyErr none (chainInv_initCtx _))) hr
    obtain ⟨he, hl⟩ := dispatchErrors_spec eng.errorHandlers c1
    simp only [herr1] at hl
    rw [List.append_nil] at hl
    refine ⟨hchain, by rw [he, herr1], by rw [hl]; exact hinv.2, ?_⟩
    intro cont c hsc
    simp [runHandler, notFoundHandler, statusOp, strWriteOp, hsc]

/-- Witness for claim C8: the empty engine resolves nothing; a request for
`/x` runs middleware-plus-404 and invokes no error handler. -/
theorem notFoundPathRunsNoErrorHandlersWitness :
    serveChain engEmpty (getRoute engEmpty.forest "GET" "/x").1 =
      engEmpty.middlewares ++ [notFoundHandler] ∧
    ((serve 10 engEmpty "GET" "/x").getD (initCtx [])).err = none ∧
    errHandlerPairs ((serve 10 engEmpty "GET" "/x").getD (initCtx [])).log =
      [] ∧
    (∀ (cont : Option Nat → Ctx → Option Ctx) (c : Ctx),
        c.statusCodeWritten = false →
        runHandler cont notFoundHandler c =
          some { c with statusCodeWritten := true, statusCode := some 404,
                        body := c.body ++ [notFoundBody] }) :=
  notFoundPathRunsNoErrorHandlers 10 engEmpty "GET" "/x" _ rfl
    (fun h hm => absurd hm (List.not_mem_nil h)) rfl

end Goxpress

namespace Goxpress

theorem handleOp_routers (w : World) (rid : Nat) (m pat : String)
    (hs : List Handler) : (handleOp w rid m pat hs).routers = w.routers := by
  unfold handleOp
  cases hrr : w.routers.get? rid <;> simp [hrr]

theorem getRouteOp_eq_of_sameRef (w : World) (rid1 rid2 : Nat)
    (r1 r2 : RouterData) (h1 : w.routers.get? rid1 = some r1)
    (h2 : w.routers.get? rid2 = some r2) (href : r1.routesRef = r2.routesRef)
    (m p : String) : getRouteOp w rid1 m p = getRouteOp w rid2 m p := by
  unfold getRouteOp
  rw [h1, h2]
  show getRoute (w.forests.getD r1.routesRef []) m p =
    getRoute (w.forests.getD r2.routesRef []) m p
  rw [href]

/-- Claim C9: after `g := r.Group(p)`, a later `r.Use(ms)` changes only the
parent's middleware list — the group keeps the copy taken at grouping time —
while the group's `routes` reference is the parent's, so after registering a
route through the group, lookups through the parent and through the group
agree (and, concretely, a route registered through the group is found
through the parent). -/
theorem groupCopiesMiddlewaresSharesForest :
    (∀ (w : World) (rid : Nat) (r : RouterData) (p : String)
        (ms : List Handler),
      w.routers.get? rid = some r →
      (useOp (groupOp w rid p).1 rid ms).routers.get? (groupOp w rid p).2 =
          some { pfx := r.pfx ++ p, middlewares := r.middlewares,
                 routesRef := r.routesRef } ∧
      (useOp (groupOp w rid p).1 rid ms).routers.get? rid =
          some { pfx := r.pfx, middlewares := r.middlewares ++ ms,
                 routesRef := r.routesRef } ∧
      (∀ (method pattern : String) (hs : List Handler) (m' path' : String),
        getRouteOp
          (handleOp (useOp (groupOp w rid p).1 rid ms) (groupOp w rid p).2
            method pattern hs) rid m' path' =
        getRouteOp
          (handleOp (useOp (groupOp w rid p).1 rid ms) (groupOp w rid p).2
            method pattern hs) (groupOp w rid p).2 m' path')) ∧
    (getRouteOp
        (handleOp (useOp (groupOp w0 0 "/api").1 0 [mwParent])
          (groupOp w0 0 "/api").2 "GET" "/users" [hUsers])
        0 "GET" "/api/users").1.map RouterNode.handlers = some [hUsers] := by
  constructor
  · intro w rid r p ms hr
    have hlt : rid < w.routers.length := (List.get?_eq_some.mp hr).1
    have hg1 : (groupOp w rid p).1 =
        { w with routers := w.routers ++
            [{ pfx := r.pfx ++ p, middlewares := r.middlewares,
               routesRef := r.routesRef }] } := by
      unfold groupOp
      rw [hr]
    have hg2 : (groupOp w rid p).2 = w.routers.length := by
      unfold groupOp
      rw [hr]
    have hr1 : (groupOp w rid p).1.routers.get? rid = some r := by
      rw [hg1]
      exact (List.get?_append hlt).trans hr
    have hu : useOp (groupOp w rid p).1 rid ms =
        { (groupOp w rid p).1 with
          routers := (groupOp w rid p).1.routers.set rid
            { pfx := r.pfx, middlewares := r.middlewares ++ ms,
              routesRef := r.routesRef } } := by
      unfold useOp
      rw [hr1]
    have ha : (useOp (groupOp w rid p).1 rid ms).routers.get?
        (groupOp w rid p).2 =
        some { pfx := r.pfx ++ p, middlewares := r.middlewares,
               routesRef := r.routesRef } := by
      rw [hu, hg1, hg2]
      rw [List.get?_set_ne _ _ (Nat.ne_of_lt hlt)]
      exact List.get?_concat_length _ _
    have hb : (useOp (groupOp w rid p).1 rid ms).routers.get? rid =
        some { pfx := r.pfx, middlewares := r.middlewares ++ ms,
               routesRef := r.routesRef } := by
      rw [hu, hg1]
      exact List.get?_set_eq_of_lt _
        (by simpa using Nat.lt_succ_of_lt hlt)
    refine ⟨ha, hb, ?_⟩
    intro method pattern hs m' path'
    refine getRouteOp_eq_of_sameRef _ rid (groupOp w rid p).2
      { pfx := r.pfx, middlewares := r.middlewares ++ ms,
        routesRef := r.routesRef }
      { pfx := r.pfx ++ p, middlewares := r.middlewares,
        routesRef := r.routesRef } ?_ ?_ rfl m' path'
    · rw [handleOp_routers]
      exact hb
    · rw [handleOp_routers]
      exact ha
  · rfl

/-- Witness for claim C9 at the one-router world `w0`: after grouping at
`/api` and a later parent `Use`, the group still has the empty middleware
copy, the parent gained `mwParent`, and lookups agree after registering
through the group. -/
theorem groupCopiesMiddlewaresSharesForestWitness :
    (useOp (groupOp w0 0 "/api").1 0 [mwParent]).routers.get?
        (groupOp w0 0 "/api").2 =
      some { pfx := "/api", middlewares := [], routesRef := 0 } ∧
    (useOp (groupOp w0 0 "/api").1 0 [mwParent]).routers.get? 0 =
      some { pfx := "", middlewares := [mwParent], routesRef := 0 } ∧
    getRouteOp
        (handleOp (useOp (groupOp w0 0 "/api").1 0 [mwParent])
          (groupOp w0 0 "/api").2 "GET" "/users" [hUsers])
        0 "GET" "/api/users" =
      getRouteOp
        (handleOp (useOp (groupOp w0 0 "/api").1 0 [mwParent])
          (groupOp w0 0 "/api").2 "GET" "/users" [hUsers])
        (groupOp w0 0 "/api").2 "GET" "/api/users" := by
  obtain ⟨h1, h2, h3⟩ := groupCopiesMiddlewaresSharesForest.1 w0 0
    { pfx := "", middlewares := [], routesRef := 0 } "/api" [mwParent] rfl
  exact ⟨h1, h2, h3 "GET" "/users" [hUsers] "GET" "/api/users"⟩

end Goxpress
